import Mathlib

/-!
Verification of the inventory-tracking service (item-and-photo lifecycle
manager) against its natural-language specification.

The service exists in two variants:
* a flat-file variant (`main.js`): item records live in an in-memory
  object `inventory = { nextId, list }` flushed to `inventory.json` via
  `fs.writeFileSync` after every mutation; photo blobs are files in the
  `uploads` directory;
* a relational variant: the same routes backed by a SQL table with a
  serial `id` column; photo blobs are files in the cache directory.

Both are embedded shallowly below.  Machine integers are modelled as `Int`
(JavaScript numbers on these code paths are integers well inside the exact
range).  Filesystem contents are modelled as the list of blob filenames
present in the managed directory, and each handler additionally returns the
ordered list of externally visible side effects (`Event`s) it performs, so
that ordering claims about blob deletion versus repository writes can be
stated.  `multer` stores an incoming upload into the managed directory
before a handler runs; the embeddings of the upload-accepting handlers make
that write explicit by extending the blob list first.
-/

set_option autoImplicit false

/-- A persisted inventory record: `{ id, inventory_name, description, photo }`
as created by `app.post("/register")`.  `photo` is the stored blob filename
or `null`. -/
structure Item where
  id : Int
  inventory_name : String
  description : String
  photo : Option String
  deriving DecidableEq

/-- The persisted store of the flat-file variant: the JSON document
`{ nextId, list }` held in the module-level `inventory` variable.  The
relational variant's table is modelled with the same shape, `nextId` playing
the role of the serial id sequence. -/
structure Inventory where
  nextId : Int
  list : List Item
  deriving DecidableEq

/-- Client-facing item view produced by `formatItemResponse`: the stored
fields with `photo` replaced by a resolvable locator (or null). -/
structure ItemView where
  id : Int
  inventory_name : String
  description : String
  photo : Option String
  deriving DecidableEq

/-- Client-facing view returned by `POST /search`: the formatted item with
the `photo` field destructured away. -/
structure SearchView where
  id : Int
  inventory_name : String
  description : String
  deriving DecidableEq

/-- HTTP responses the embedded handlers can produce. -/
inductive Response where
  | ok (body : ItemView)
  | okSearch (body : SearchView)
  | okList (body : List ItemView)
  | okEmpty
  | badRequest (msg : String)
  | notFound (msg : String)
  deriving DecidableEq

/-- Externally visible side effects of a handler, in program order.
`blobDelete` is an `fs.unlinkSync` of a file in the managed blob directory;
`dbWrite` is the flat-file variant's `fs.writeFileSync(dbFile, ...)` of the
whole `{ nextId, list }` document; the `sql*` events are the relational
variant's mutating queries. -/
inductive Event where
  | blobDelete (name : String)
  | dbWrite (inv : Inventory)
  | sqlInsert (item : Item)
  | sqlUpdateMeta (id : Int) (inventory_name description : String)
  | sqlUpdatePhoto (id : Int) (photo : Option String)
  | sqlDeleteRow (id : Int)
  deriving DecidableEq

/-- Full server state: the item store plus the set of blob files present in
the managed directory (`uploads/` for the flat-file variant, the cache
directory for the relational one). -/
structure FsState where
  inv : Inventory
  blobs : List String
  deriving DecidableEq

/-- What one handler invocation yields: the HTTP response, the state after
the call, and the ordered side-effect trace. -/
structure HandlerResult where
  resp : Response
  state : FsState
  events : List Event
  deriving DecidableEq

/-- JavaScript truthiness of a nullable string: `null`/`undefined` and the
empty string are falsy. -/
def truthy : Option String → Bool
  | none => false
  | some s => !(s == "")

/-- `formatItemResponse`: spreads the item and replaces `photo` with
`"<base>/inventory/<id>/photo"` when the stored `photo` is truthy, `null`
otherwise.  `base` abstracts the only difference between the variants here:
`http://<host>:<port>` in the flat-file variant, the empty string in the
relational one. -/
def photoUrl (base : String) (idv : Int) : String :=
  base ++ "/inventory/" ++ toString idv ++ "/photo"

/-- Spread the stored item into the client view, overriding `photo` with
the locator or `null`. -/
def formatItemResponse (base : String) (item : Item) : ItemView :=
  { id := item.id
    inventory_name := item.inventory_name
    description := item.description
    photo :=
      if truthy item.photo then some (photoUrl base item.id)
      else none }

/-- `inventory.list.find(v => v.id === <id>)`: first record with the given
id. -/
def findItem (inv : Inventory) (idv : Int) : Option Item :=
  inv.list.find? (fun v => v.id == idv)

/-- In-place mutation of the object returned by `find`: replace the first
list element satisfying `p` by `f` of it, leaving the rest untouched. -/
def updateFirst (p : Item → Bool) (f : Item → Item) : List Item → List Item
  | [] => []
  | x :: xs => if p x then f x :: xs else x :: updateFirst p f xs

/-- `if (fs.existsSync(path)) fs.unlinkSync(path)` on a blob name: remove
the file if present, reporting the deletion event. -/
def unlinkIfExists (blobs : List String) (name : String) :
    List String × List Event :=
  if name ∈ blobs then (blobs.erase name, [Event.blobDelete name])
  else (blobs, [])

/-- The old-photo cleanup block shared by the replace-photo and delete
handlers of both variants:
`if (item.photo) { const p = path.join(dir, item.photo); if (fs.existsSync(p)) fs.unlinkSync(p); }`. -/
def cleanupPhoto (blobs : List String) (photo : Option String) :
    List String × List Event :=
  match photo with
  | some p => if p == "" then (blobs, []) else unlinkIfExists blobs p
  | none => (blobs, [])

/-- `app.post("/register")` of the flat-file variant (`main.js`).  `multer`
has already stored the upload (if any) into the uploads directory, hence
the blob list is extended first.  Note that on a falsy `inventory_name` the
handler returns 400 immediately without unlinking the stored upload. -/
def registerFlat (s : FsState) (base : String)
    (inventory_name description upload : Option String) : HandlerResult :=
  let blobs0 := s.blobs ++ upload.toList
  if truthy inventory_name then
    let nm := inventory_name.getD ""
    let desc := description.getD ""
    let idv := s.inv.nextId
    let item : Item :=
      { id := idv, inventory_name := nm, description := desc, photo := upload }
    let inv' : Inventory :=
      { nextId := s.inv.nextId + 1, list := s.inv.list ++ [item] }
    { resp := .ok (formatItemResponse base item)
      state := { inv := inv', blobs := blobs0 }
      events := [.dbWrite inv'] }
  else
    { resp := .badRequest "Name required"
      state := { inv := s.inv, blobs := blobs0 }
      events := [] }

/-- `app.get("/inventory")` of the flat-file variant. -/
def listFlat (inv : Inventory) (base : String) : Response :=
  .okList (inv.list.map (formatItemResponse base))

/-- `app.get("/inventory/:id")` of the flat-file variant, over an already
coerced integer id. -/
def getFlat (inv : Inventory) (base : String) (idv : Int) : Response :=
  match findItem inv idv with
  | some item => .ok (formatItemResponse base item)
  | none => .notFound "Inventory with this id not found"

/-- `app.put("/inventory/:id")` of the flat-file variant: partial metadata
update via `item.field = supplied ?? item.field` (note that `??` keeps an
explicitly supplied empty string), then a flush of the whole document.
The `if (req.file)` cleanup in the not-found branch is dead code (the route
has no upload middleware) and is omitted. -/
def updateMetaFlat (s : FsState) (base : String) (idv : Int)
    (inventory_name description : Option String) : HandlerResult :=
  match findItem s.inv idv with
  | none =>
    { resp := .notFound "Inventory with this id not found"
      state := s, events := [] }
  | some item =>
    let item' : Item :=
      { item with
        inventory_name := inventory_name.getD item.inventory_name
        description := description.getD item.description }
    let inv' : Inventory :=
      { s.inv with
        list := updateFirst (fun v => v.id == idv) (fun _ => item') s.inv.list }
    { resp := .ok (formatItemResponse base item')
      state := { s with inv := inv' }
      events := [.dbWrite inv'] }

/-- `app.put("/inventory/:id/photo")` of the flat-file variant.  Program
order: (1) `multer` stores the new upload; (2) on a missing item the upload
is unlinked and 404 returned; (3) otherwise the OLD blob is unlinked (if it
exists on disk); (4) only then is `item.photo` reassigned and the document
flushed. -/
def replacePhotoFlat (s : FsState) (base : String) (idv : Int)
    (upload : Option String) : HandlerResult :=
  let blobs0 := s.blobs ++ upload.toList
  match findItem s.inv idv with
  | none =>
    match upload with
    | some f =>
      { resp := .notFound "Inventory with this id not found"
        state := { inv := s.inv, blobs := blobs0.erase f }
        events := [.blobDelete f] }
    | none =>
      { resp := .notFound "Inventory with this id not found"
        state := { inv := s.inv, blobs := blobs0 }
        events := [] }
  | some item =>
    let (blobs1, ev1) := cleanupPhoto blobs0 item.photo
    let item' : Item := { item with photo := upload }
    let inv' : Inventory :=
      { s.inv with
        list := updateFirst (fun v => v.id == idv) (fun _ => item') s.inv.list }
    { resp := .ok (formatItemResponse base item')
      state := { inv := inv', blobs := blobs1 }
      events := ev1 ++ [.dbWrite inv'] }

/-- `app.delete("/inventory/:id")` of the flat-file variant.  Program
order: find the item; 404 if absent; unlink its blob (if any, and if it
exists on disk); only then filter the record out of the list and flush the
document. -/
def deleteFlat (s : FsState) (idv : Int) : HandlerResult :=
  match findItem s.inv idv with
  | none =>
    { resp := .notFound "Inventory with this id not found"
      state := s, events := [] }
  | some item =>
    let (blobs1, ev1) := cleanupPhoto s.blobs item.photo
    let inv' : Inventory :=
      { s.inv with list := s.inv.list.eraseP (fun v => v.id == idv) }
    { resp := .okEmpty
      state := { inv := inv', blobs := blobs1 }
      events := ev1 ++ [.dbWrite inv'] }

/-- `app.post("/search")` of the flat-file variant: find the item, format
it, destructure the `photo` field away, and when `has_photo === "on"`
append `" [Photo:" + photo + "]"` (the photo locator) or
`" [No photo available]"` to the description of the response copy.  The
handler performs no store mutation and no filesystem write. -/
def searchFlat (s : FsState) (base : String) (idv : Int)
    (has_photo : Option String) : HandlerResult :=
  match findItem s.inv idv with
  | none =>
    { resp := .notFound "Inventory with this id not found"
      state := s, events := [] }
  | some item =>
    let fmt := formatItemResponse base item
    let d :=
      if has_photo == some "on" then
        if truthy fmt.photo then
          fmt.description ++ " [Photo:" ++ fmt.photo.getD "" ++ "]"
        else
          fmt.description ++ " [No photo available]"
      else fmt.description
    { resp := .okSearch
        { id := fmt.id, inventory_name := fmt.inventory_name, description := d }
      state := s, events := [] }

/-! ### Relational variant

The relational variant's routes live in the second source file; its database
module and table schema are not part of the sources, so the semantics of the
SQL statements over the `inventory` table is modelled from the spec.  A
table state is an `Inventory` value: `list` carries the row multiset in one
representative order and `nextId` the serial id sequence.  The spec
guarantees no row order for this backend (only "all rows present"), so no
theorem may depend on the representative: the backend-equivalence theorem
quantifies over arbitrarily permuted table states and compares row
collections only up to permutation. -/

/-- Modelled from the spec: the `INSERT INTO inventory ... RETURNING id`
statement against the missing table schema.  The spec requires `id` to be an
"integer, unique, monotonically assigned" (a serial column): the insert
appends the row with the next sequence value and returns that id. -/
def sqlInsertReturningId (inv : Inventory) (inventory_name description : String)
    (photo : Option String) : Int × Inventory :=
  let idv := inv.nextId
  let item : Item :=
    { id := idv, inventory_name := inventory_name
      description := description, photo := photo }
  (idv, { nextId := inv.nextId + 1, list := inv.list ++ [item] })

/-- Modelled from the spec: `UPDATE inventory SET ... WHERE id = $1` against
the missing table schema updates every row whose `id` matches (at most one,
ids being unique).  The model keeps the representative row order; a real
backend may reorder rows on update, which the equivalence theorem absorbs
by quantifying over permuted table states and comparing tables only up to
permutation. -/
def sqlUpdateWhere (inv : Inventory) (idv : Int) (f : Item → Item) : Inventory :=
  { inv with list := inv.list.map (fun v => if v.id == idv then f v else v) }

/-- Modelled from the spec: `DELETE FROM inventory WHERE id = $1` against
the missing table schema removes every row whose `id` matches.  Row order
of the survivors is again only a representative. -/
def sqlDeleteWhere (inv : Inventory) (idv : Int) : Inventory :=
  { inv with list := inv.list.filter (fun v => !(v.id == idv)) }

/-- `app.post("/register")` of the relational variant: on a falsy
`inventory_name` the stored upload IS unlinked before the 400 response
(unlike the flat-file variant); otherwise the row is inserted and the
created item echoed back. -/
def registerRel (s : FsState) (base : String)
    (inventory_name description upload : Option String) : HandlerResult :=
  let blobs0 := s.blobs ++ upload.toList
  if truthy inventory_name then
    let nm := inventory_name.getD ""
    let desc := description.getD ""
    let (idv, inv') := sqlInsertReturningId s.inv nm desc upload
    let item : Item :=
      { id := idv, inventory_name := nm, description := desc, photo := upload }
    { resp := .ok (formatItemResponse base item)
      state := { inv := inv', blobs := blobs0 }
      events := [.sqlInsert item] }
  else
    match upload with
    | some f =>
      { resp := .badRequest "Name required"
        state := { inv := s.inv, blobs := blobs0.erase f }
        events := [.blobDelete f] }
    | none =>
      { resp := .badRequest "Name required"
        state := { inv := s.inv, blobs := blobs0 }
        events := [] }

/-- `app.get("/inventory")` of the relational variant (`SELECT * FROM
inventory`).  The model returns the table's representative order; the spec
guarantees only "all rows present" for this backend, so claims about this
operation are stated up to permutation of the returned views. -/
def listRel (inv : Inventory) (base : String) : Response :=
  .okList (inv.list.map (formatItemResponse base))

/-- `app.get("/inventory/:id")` of the relational variant
(`SELECT * FROM inventory WHERE id = $1`, first row or 404). -/
def getRel (inv : Inventory) (base : String) (idv : Int) : Response :=
  match findItem inv idv with
  | some item => .ok (formatItemResponse base item)
  | none => .notFound "Inventory with this id not found"

/-- `app.put("/inventory/:id")` of the relational variant: select the row,
apply `?? `-style partial update to the fetched object, then
`UPDATE inventory SET inventory_name=$1, description=$2 WHERE id = $3`. -/
def updateMetaRel (s : FsState) (base : String) (idv : Int)
    (inventory_name description : Option String) : HandlerResult :=
  match findItem s.inv idv with
  | none =>
    { resp := .notFound "Inventory with this id not found"
      state := s, events := [] }
  | some item =>
    let nm := inventory_name.getD item.inventory_name
    let desc := description.getD item.description
    let item' : Item := { item with inventory_name := nm, description := desc }
    let inv' := sqlUpdateWhere s.inv idv
      (fun v => { v with inventory_name := nm, description := desc })
    { resp := .ok (formatItemResponse base item')
      state := { s with inv := inv' }
      events := [.sqlUpdateMeta idv nm desc] }

/-- `app.put("/inventory/:id/photo")` of the relational variant.  Program
order: `multer` stores the new upload; on a missing row the upload is
unlinked and 404 returned; otherwise the OLD blob is unlinked (if it exists
on disk), and only then `UPDATE inventory SET photo=$1 WHERE id = $2` is
issued. -/
def replacePhotoRel (s : FsState) (base : String) (idv : Int)
    (upload : Option String) : HandlerResult :=
  let blobs0 := s.blobs ++ upload.toList
  match findItem s.inv idv with
  | none =>
    match upload with
    | some f =>
      { resp := .notFound "Inventory with this id not found"
        state := { inv := s.inv, blobs := blobs0.erase f }
        events := [.blobDelete f] }
    | none =>
      { resp := .notFound "Inventory with this id not found"
        state := { inv := s.inv, blobs := blobs0 }
        events := [] }
  | some item =>
    let (blobs1, ev1) := cleanupPhoto blobs0 item.photo
    let item' : Item := { item with photo := upload }
    let inv' := sqlUpdateWhere s.inv idv (fun v => { v with photo := upload })
    { resp := .ok (formatItemResponse base item')
      state := { inv := inv', blobs := blobs1 }
      events := ev1 ++ [.sqlUpdatePhoto idv upload] }

/-- `app.delete("/inventory/:id")` of the relational variant.  Program
order: select the row; 404 if absent; unlink its blob (if any, and if it
exists on disk); only then `DELETE FROM inventory WHERE id = $1`. -/
def deleteRel (s : FsState) (idv : Int) : HandlerResult :=
  match findItem s.inv idv with
  | none =>
    { resp := .notFound "Inventory with this id not found"
      state := s, events := [] }
  | some item =>
    let (blobs1, ev1) := cleanupPhoto s.blobs item.photo
    let inv' := sqlDeleteWhere s.inv idv
    { resp := .okEmpty
      state := { inv := inv', blobs := blobs1 }
      events := ev1 ++ [.sqlDeleteRow idv] }

/-- `app.post("/search")` of the relational variant: as the flat-file one,
but the appended marker is `" [Photo: " + photo + " ]"` (with a space after
the colon and before the closing bracket). -/
def searchRel (s : FsState) (base : String) (idv : Int)
    (has_photo : Option String) : HandlerResult :=
  match findItem s.inv idv with
  | none =>
    { resp := .notFound "Inventory with this id not found"
      state := s, events := [] }
  | some item =>
    let fmt := formatItemResponse base item
    let d :=
      if has_photo == some "on" then
        if truthy fmt.photo then
          fmt.description ++ " [Photo: " ++ fmt.photo.getD "" ++ " ]"
        else
          fmt.description ++ " [No photo available]"
      else fmt.description
    { resp := .okSearch
        { id := fmt.id, inventory_name := fmt.inventory_name, description := d }
      state := s, events := [] }

/-! ### JavaScript `Number(string)` coercion

`app.get("/inventory/:id")` of the flat-file variant compares
`v.id === Number(id)` where `id` is an arbitrary path-parameter string.
Since every stored `id` is an integer, only the question "is the coerced
value exactly the integer `k`?" matters; `jsNumberInt` returns `some k`
exactly when ECMAScript `ToNumber` of the string denotes the integer `k`,
and `none` when it denotes `NaN`, an infinity, or a non-integer value (all
of which make `===` against an integer id false).  Values are computed
exactly (float64 rounding of astronomically large literals is not
modelled). -/

/-- ECMAScript StrWhiteSpaceChar: whitespace and line terminators stripped
by `ToNumber` before parsing. -/
def jsWhitespaceChars : List Char :=
  [' ', '\t', '\n', '\r', Char.ofNat 0x0b, Char.ofNat 0x0c, Char.ofNat 0xa0,
   Char.ofNat 0x1680, Char.ofNat 0x2000, Char.ofNat 0x2001, Char.ofNat 0x2002,
   Char.ofNat 0x2003, Char.ofNat 0x2004, Char.ofNat 0x2005, Char.ofNat 0x2006,
   Char.ofNat 0x2007, Char.ofNat 0x2008, Char.ofNat 0x2009, Char.ofNat 0x200a,
   Char.ofNat 0x2028, Char.ofNat 0x2029, Char.ofNat 0x202f, Char.ofNat 0x205f,
   Char.ofNat 0x3000, Char.ofNat 0xfeff]

/-- Is `c` JavaScript whitespace (for trimming in `ToNumber`)? -/
def isJsSpace (c : Char) : Bool := jsWhitespaceChars.contains c

/-- Strip leading and trailing JavaScript whitespace. -/
def jsTrim (cs : List Char) : List Char :=
  ((cs.dropWhile isJsSpace).reverse.dropWhile isJsSpace).reverse

/-- Decimal digit value of a character, if any. -/
def decDigit? (c : Char) : Option Nat :=
  if c.isDigit then some (c.toNat - 48) else none

/-- Hexadecimal digit value of a character, if any. -/
def hexDigit? (c : Char) : Option Nat :=
  if c.isDigit then some (c.toNat - 48)
  else if 'a' ≤ c ∧ c ≤ 'f' then some (c.toNat - 87)
  else if 'A' ≤ c ∧ c ≤ 'F' then some (c.toNat - 55)
  else none

/-- Octal digit value of a character, if any. -/
def octDigit? (c : Char) : Option Nat :=
  if '0' ≤ c ∧ c ≤ '7' then some (c.toNat - 48) else none

/-- Binary digit value of a character, if any. -/
def binDigit? (c : Char) : Option Nat :=
  if c = '0' ∨ c = '1' then some (c.toNat - 48) else none

/-- Value of a digit-value list read most significant first. -/
def digitsVal (base : Nat) (ds : List Nat) : Nat :=
  ds.foldl (fun a d => a * base + d) 0

/-- Split off the longest prefix of characters accepted by the digit
reader `f`, returning their values and the remainder. -/
def takeMap (f : Char → Option Nat) : List Char → List Nat × List Char
  | [] => ([], [])
  | c :: cs =>
    match f c with
    | some d =>
      let r := takeMap f cs
      (d :: r.1, r.2)
    | none => ([], c :: cs)

/-- A whole-string non-decimal integer literal body (after `0x`/`0o`/`0b`):
at least one digit and nothing else. -/
def parseRadix (base : Nat) (f : Char → Option Nat) (cs : List Char) :
    Option Int :=
  let (ds, r) := takeMap f cs
  if ds ≠ [] ∧ r = [] then some ((digitsVal base ds : Nat) : Int) else none

/-- ExponentPart body after `e`/`E`: optional sign then at least one digit,
consuming the whole remainder. -/
def parseExp (cs : List Char) : Option Int :=
  let sgn : Int := match cs with | '-' :: _ => -1 | _ => 1
  let cs1 : List Char :=
    match cs with
    | '+' :: r => r
    | '-' :: r => r
    | r => r
  let (ds, r) := takeMap decDigit? cs1
  if ds ≠ [] ∧ r = [] then some (sgn * ((digitsVal 10 ds : Nat) : Int))
  else none

/-- StrUnsignedDecimalLiteral (without `Infinity`): digits, optional `.`
and fraction digits, optional exponent; whole remainder consumed.  Returns
the exact value when it is an integer, `none` when malformed or when the
exact value is not an integer. -/
def parseUnsignedDecimal (cs : List Char) : Option Int :=
  let (ip, r1) := takeMap decDigit? cs
  let fr : List Nat × List Char :=
    match r1 with
    | '.' :: r => takeMap decDigit? r
    | _ => ([], r1)
  let fp := fr.1
  let r2 := fr.2
  let expPart : Option Int :=
    match r2 with
    | [] => some 0
    | 'e' :: r => parseExp r
    | 'E' :: r => parseExp r
    | _ => none
  match expPart with
  | none => none
  | some e =>
    if ip = [] ∧ fp = [] then none
    else
      let m : Int := ((digitsVal 10 (ip ++ fp) : Nat) : Int)
      let sh : Int := e - (fp.length : Int)
      if 0 ≤ sh then some (m * (10 : Int) ^ sh.toNat)
      else if m % ((10 : Int) ^ (-sh).toNat) = 0 then
        some (m / ((10 : Int) ^ (-sh).toNat))
      else none

/-- StrDecimalLiteral: optional sign, then `Infinity` (not an integer) or an
unsigned decimal literal. -/
def parseSignedDecimal (cs : List Char) : Option Int :=
  let sgn : Int := match cs with | '-' :: _ => -1 | _ => 1
  let cs1 : List Char :=
    match cs with
    | '+' :: r => r
    | '-' :: r => r
    | r => r
  if cs1 = "Infinity".data then none
  else (parseUnsignedDecimal cs1).map (fun v => sgn * v)

/-- ECMAScript `Number(s)` restricted to the integer question: `some k` iff
the string coerces to exactly the integer `k`; `none` for `NaN`, infinities
and non-integer values. -/
def jsNumberInt (s : String) : Option Int :=
  match jsTrim s.data with
  | [] => some 0
  | '0' :: x :: rest =>
    if x = 'x' ∨ x = 'X' then parseRadix 16 hexDigit? rest
    else if x = 'o' ∨ x = 'O' then parseRadix 8 octDigit? rest
    else if x = 'b' ∨ x = 'B' then parseRadix 2 binDigit? rest
    else parseSignedDecimal ('0' :: x :: rest)
  | cs => parseSignedDecimal cs

/-- `app.get("/inventory/:id")` of the flat-file variant over the raw path
parameter string: `inventory.list.find(v => v.id === Number(id))`. -/
def getFlatStr (inv : Inventory) (base : String) (idParam : String) :
    Response :=
  match inv.list.find? (fun v => jsNumberInt idParam == some v.id) with
  | some item => .ok (formatItemResponse base item)
  | none => .notFound "Inventory with this id not found"

/-! ### Operation sequences over the flat-file store -/

/-- One client operation against the flat-file variant (typed inputs; the
option fields distinguish an absent form field from a supplied one). -/
inductive Op where
  | register (inventory_name description upload : Option String)
  | updateMeta (idv : Int) (inventory_name description : Option String)
  | replacePhoto (idv : Int) (upload : Option String)
  | delete (idv : Int)
  | search (idv : Int) (has_photo : Option String)
  deriving DecidableEq

/-- State transition of one flat-file operation (the response base does not
influence the state). -/
def step (s : FsState) : Op → FsState
  | .register n d u => (registerFlat s "" n d u).state
  | .updateMeta i n d => (updateMetaFlat s "" i n d).state
  | .replacePhoto i u => (replacePhotoFlat s "" i u).state
  | .delete i => (deleteFlat s i).state
  | .search i hp => (searchFlat s "" i hp).state

/-- Side-effect trace of one flat-file operation. -/
def stepEvents (s : FsState) : Op → List Event
  | .register n d u => (registerFlat s "" n d u).events
  | .updateMeta i n d => (updateMetaFlat s "" i n d).events
  | .replacePhoto i u => (replacePhotoFlat s "" i u).events
  | .delete i => (deleteFlat s i).events
  | .search i hp => (searchFlat s "" i hp).events

/-- Run a sequence of operations. -/
def run (s : FsState) (ops : List Op) : FsState :=
  ops.foldl step s

/-- The server's initial state: `dbFile` is seeded with
`{ nextId: 1, list: [] }` and the uploads directory is empty. -/
def initState : FsState :=
  { inv := { nextId := 1, list := [] }, blobs := [] }

/-- All stored ids are pairwise distinct. -/
def UniqueIds (l : List Item) : Prop := (l.map Item.id).Nodup

/-- Store well-formedness for ids: pairwise distinct and all below the
`nextId` counter. -/
def IdsOk (inv : Inventory) : Prop :=
  UniqueIds inv.list ∧ ∀ it ∈ inv.list, it.id < inv.nextId

/-- Invariant I4: every persisted item has a non-empty name. -/
def NamesOk (inv : Inventory) : Bool :=
  inv.list.all (fun it => !(it.inventory_name == ""))

/-- The id freshly assigned by an operation, if any: only a `register` with
a truthy name mints an id, namely the current `nextId`. -/
def assignedId (s : FsState) : Op → Option Int
  | .register n _ _ => if truthy n then some s.inv.nextId else none
  | _ => none

/-- The ids minted along a run, in order. -/
def assignedIds : FsState → List Op → List Int
  | _, [] => []
  | s, op :: ops => (assignedId s op).toList ++ assignedIds (step s op) ops

/-- Is the event a durable write of the item repository (a flat-file
document flush or a mutating SQL statement)? -/
def isRepoWriteEvent : Event → Bool
  | .dbWrite _ => true
  | .sqlInsert _ => true
  | .sqlUpdateMeta _ _ _ => true
  | .sqlUpdatePhoto _ _ => true
  | .sqlDeleteRow _ => true
  | _ => false

/-- Is the event a blob-file deletion? -/
def isBlobDeleteEvent : Event → Bool
  | .blobDelete _ => true
  | _ => false

/-- Does the trace delete blob `old` strictly before the first durable
repository write?  (`true` exactly when the "never delete the old blob
before the new state is durably recorded" ordering is violated for
`old`.) -/
def deletedBeforeRepoWrite (old : String) : List Event → Bool
  | [] => false
  | e :: es =>
    if isRepoWriteEvent e then false
    else if e == .blobDelete old then true
    else deletedBeforeRepoWrite old es

/-- The description carried by an item-bearing response, if any. -/
def respDescription : Response → Option String
  | .ok v => some v.description
  | .okSearch v => some v.description
  | _ => none

/-- Does the operation respect the precondition under which I4 survives:
any `updateMeta` must not supply the explicit empty-string name? -/
def opKeepsNames : Op → Bool
  | .updateMeta _ n _ => !(n == some "")
  | _ => true

instance (l : List Item) : Decidable (UniqueIds l) := by
  unfold UniqueIds; infer_instance

instance (inv : Inventory) : Decidable (IdsOk inv) := by
  unfold IdsOk UniqueIds; infer_instance

/-- Fixture: an item with a stored photo blob. -/
def itemP : Item :=
  { id := 1, inventory_name := "Saw", description := "d", photo := some "p.jpg" }

/-- Fixture: an item without a photo. -/
def itemN : Item :=
  { id := 2, inventory_name := "Drill", description := "e", photo := none }

/-- Fixture state holding both items, with the photo blob present on disk. -/
def stFix : FsState :=
  { inv := { nextId := 3, list := [itemP, itemN] }, blobs := ["p.jpg"] }

/-- The fixture's repository content presented in the opposite row order, a
permuted relational table state. -/
def stFixPerm : FsState :=
  { inv := { nextId := 3, list := [itemN, itemP] }, blobs := ["p.jpg"] }

/-- A flat-file state and a relational table state hold the same repository
content: the same serial counter, the same rows up to order (the spec
guarantees no row order for the relational backend), and the same blob
directory. -/
def StatesMatch (s r : FsState) : Prop :=
  s.inv.nextId = r.inv.nextId ∧ s.inv.list.Perm r.inv.list ∧ s.blobs = r.blobs

/-- Fixture store for the C10 witness. -/
def invC10 : Inventory :=
  { nextId := 2,
    list := [{ id := 1, inventory_name := "Saw", description := "", photo := none }] }

/-! ### Helper lemmas -/

lemma filter_eq_self_of_no_match (k : Int) (l : List Item)
    (h : ∀ v ∈ l, v.id ≠ k) :
    l.filter (fun v => !(v.id == k)) = l := by
  apply List.filter_eq_self.mpr
  intro a ha
  simp [h a ha]

lemma map_if_eq_self_of_no_match (k : Int) (f : Item → Item) (l : List Item)
    (h : ∀ v ∈ l, v.id ≠ k) :
    l.map (fun v => if v.id == k then f v else v) = l := by
  have : l.map (fun v => if v.id == k then f v else v) = l.map id :=
    List.map_congr_left (by intro a ha; simp [h a ha])
  simpa using this

lemma eraseP_eq_filter_of_uniqueIds (k : Int) :
    ∀ l : List Item, UniqueIds l →
      l.eraseP (fun v => v.id == k) = l.filter (fun v => !(v.id == k)) := by
  intro l
  induction l with
  | nil => intro _; rfl
  | cons x xs ih =>
    intro h
    have hx : x.id ∉ xs.map Item.id := by
      have := (List.nodup_cons.mp h).1
      simpa using this
    have hxs : UniqueIds xs := (List.nodup_cons.mp h).2
    by_cases hk : x.id = k
    · rw [List.eraseP_cons_of_pos (by simp [hk])]
      have hnm : ∀ v ∈ xs, v.id ≠ k := by
        intro v hv hvk
        exact hx (by rw [hk, ← hvk]; exact List.mem_map_of_mem Item.id hv)
      rw [List.filter_cons_of_neg (by simp [hk])]
      exact (filter_eq_self_of_no_match k xs hnm).symm
    · rw [List.eraseP_cons_of_neg (by simp [hk])]
      rw [List.filter_cons_of_pos (by simp [hk])]
      rw [ih hxs]

lemma updateFirst_eq_map_of_uniqueIds (k : Int) (f : Item → Item) :
    ∀ l : List Item, UniqueIds l →
      updateFirst (fun v => v.id == k) f l =
        l.map (fun v => if v.id == k then f v else v) := by
  intro l
  induction l with
  | nil => intro _; rfl
  | cons x xs ih =>
    intro h
    have hx : x.id ∉ xs.map Item.id := by
      have := (List.nodup_cons.mp h).1
      simpa using this
    have hxs : UniqueIds xs := (List.nodup_cons.mp h).2
    by_cases hk : x.id = k
    · have hnm : ∀ v ∈ xs, v.id ≠ k := by
        intro v hv hvk
        exact hx (by rw [hk, ← hvk]; exact List.mem_map_of_mem Item.id hv)
      simp only [updateFirst, List.map_cons, if_pos (by simp [hk] : (x.id == k) = true)]
      rw [map_if_eq_self_of_no_match k f xs hnm]
    · simp only [updateFirst, List.map_cons, if_neg (by simp [hk] : ¬ (x.id == k) = true)]
      rw [ih hxs]

lemma find?_updateFirst_of_find? (k : Int) (y : Item) :
    ∀ (l : List Item) (item : Item),
      l.find? (fun v => v.id == k) = some item → y.id = item.id →
      (updateFirst (fun v => v.id == k) (fun _ => y) l).find?
        (fun v => v.id == k) = some y := by
  intro l
  induction l with
  | nil => intro item h; simp at h
  | cons x xs ih =>
    intro item hfind hy
    by_cases hk : (x.id == k) = true
    · rw [List.find?_cons_of_pos (p := fun v => v.id == k) xs hk] at hfind
      have hitem : x = item := by injection hfind
      have hyk : (y.id == k) = true := by
        rw [hy, ← hitem]; exact hk
      simp only [updateFirst, if_pos hk]
      exact List.find?_cons_of_pos (p := fun v => v.id == k) xs hyk
    · rw [List.find?_cons_of_neg (p := fun v => v.id == k) xs hk] at hfind
      simp only [updateFirst, if_neg hk]
      rw [List.find?_cons_of_neg (p := fun v => v.id == k) (updateFirst (fun v => v.id == k) (fun _ => y) xs) hk]
      exact ih item hfind hy

lemma ids_updateFirst_of_find? (k : Int) (y : Item) :
    ∀ (l : List Item) (item : Item),
      l.find? (fun v => v.id == k) = some item → y.id = item.id →
      (updateFirst (fun v => v.id == k) (fun _ => y) l).map Item.id =
        l.map Item.id := by
  intro l
  induction l with
  | nil => intro item h; simp at h
  | cons x xs ih =>
    intro item hfind hy
    by_cases hk : (x.id == k) = true
    · rw [List.find?_cons_of_pos (p := fun v => v.id == k) xs hk] at hfind
      have hitem : x = item := by injection hfind
      simp only [updateFirst, if_pos hk, List.map_cons]
      rw [hy, ← hitem]
    · rw [List.find?_cons_of_neg (p := fun v => v.id == k) xs hk] at hfind
      simp only [updateFirst, if_neg hk, List.map_cons]
      rw [ih item hfind hy]

lemma find?_eraseP_of_uniqueIds (k : Int) (l : List Item) (h : UniqueIds l) :
    (l.eraseP (fun v => v.id == k)).find? (fun v => v.id == k) = none := by
  rw [eraseP_eq_filter_of_uniqueIds k l h]
  apply List.find?_eq_none.mpr
  intro x hx
  have := (List.mem_filter.mp hx).2
  simpa using this

lemma eq_find_of_uniqueIds (k : Int) :
    ∀ (l : List Item) (item : Item), UniqueIds l →
      l.find? (fun v => v.id == k) = some item →
      ∀ v ∈ l, v.id = k → v = item := by
  intro l
  induction l with
  | nil => intro item _ h; simp at h
  | cons x xs ih =>
    intro item huniq hfind v hv hvk
    have hx : x.id ∉ xs.map Item.id := by
      have := (List.nodup_cons.mp huniq).1
      simpa using this
    have hxs : UniqueIds xs := (List.nodup_cons.mp huniq).2
    by_cases hk : (x.id == k) = true
    · rw [List.find?_cons_of_pos (p := fun v => v.id == k) xs hk] at hfind
      have hitem : x = item := by injection hfind
      rcases List.mem_cons.mp hv with hvx | hvxs
      · rw [hvx, hitem]
      · exfalso
        apply hx
        have : x.id = v.id := by
          have := by simpa using hk
          rw [this, hvk]
        rw [this]
        exact List.mem_map_of_mem Item.id hvxs
    · rw [List.find?_cons_of_neg (p := fun v => v.id == k) xs hk] at hfind
      rcases List.mem_cons.mp hv with hvx | hvxs
      · exfalso; apply hk; rw [← hvx]; simp [hvk]
      · exact ih item hxs hfind v hvxs hvk

lemma all_updateFirst (p q : Item → Bool) (y : Item) (hy : p y = true) :
    ∀ l : List Item, l.all p = true → (updateFirst q (fun _ => y) l).all p = true := by
  intro l
  induction l with
  | nil => intro _; rfl
  | cons x xs ih =>
    intro h
    have hx : p x = true := by
      have := List.all_eq_true.mp h
      exact this x (List.mem_cons_self x xs)
    have hxs : xs.all p = true := by
      apply List.all_eq_true.mpr
      intro a ha
      exact List.all_eq_true.mp h a (List.mem_cons_of_mem x ha)
    by_cases hq : q x = true
    · simp only [updateFirst, if_pos hq, List.all_cons, hy, hxs, Bool.and_self]
    · simp only [updateFirst, if_neg hq, List.all_cons, hx, Bool.true_and]
      exact ih hxs

lemma cleanupPhoto_events_cases (b : List String) (p : Option String) :
    (cleanupPhoto b p).2 = [] ∨ ∃ n, (cleanupPhoto b p).2 = [Event.blobDelete n] := by
  match p with
  | none => exact Or.inl rfl
  | some q =>
    by_cases hq : (q == "") = true
    · exact Or.inl (by simp [cleanupPhoto, hq])
    · by_cases hm : q ∈ b
      · exact Or.inr ⟨q, by simp [cleanupPhoto, hq, unlinkIfExists, hm]⟩
      · exact Or.inl (by simp [cleanupPhoto, hq, unlinkIfExists, hm])

lemma cleanupPhoto_of_mem (b : List String) (p : String) (hne : p ≠ "")
    (hm : p ∈ b) :
    cleanupPhoto b (some p) = (b.erase p, [Event.blobDelete p]) := by
  simp [cleanupPhoto, hne, unlinkIfExists, hm]


/-- C2 (code bug in the flat-file variant): `register` with a missing name
and an accompanying upload returns the 400 validation response and leaves
the store unchanged, but the upload file written by `multer` stays in the
uploads directory — an orphaned blob.  The relational variant discards the
upload on the same input, as the spec requires. -/
theorem c2_flat_register_leaves_upload_blob :
    (registerFlat initState "" none none (some "u.jpg")).resp =
      .badRequest "Name required" ∧
    (registerFlat initState "" none none (some "u.jpg")).state.inv =
      initState.inv ∧
    "u.jpg" ∈ (registerFlat initState "" none none (some "u.jpg")).state.blobs ∧
    (registerRel initState "" none none (some "u.jpg")).resp =
      .badRequest "Name required" ∧
    (registerRel initState "" none none (some "u.jpg")).state.blobs = [] := by
  decide

/-- C9: the search operation is display-only: it leaves the server state
untouched and performs no side effects, so a subsequent `get` returns the
same (unmarked) stored description as before the search. -/
theorem c9_search_is_display_only (s : FsState) (base base2 : String)
    (idv idv2 : Int) (hp : Option String) :
    (searchFlat s base idv hp).state = s ∧
    (searchFlat s base idv hp).events = [] ∧
    getFlat (searchFlat s base idv hp).state.inv base2 idv2 =
      getFlat s.inv base2 idv2 := by
  unfold searchFlat
  cases h : findItem s.inv idv <;> simp

/-- C10: in the flat-file variant, `GET /inventory/:id` is total over
arbitrary id strings: whenever `Number(id)` does not coerce to the id of a
stored item (in particular for non-numeric strings, which coerce to `NaN`),
the handler answers 404; and for every string the handler answers either
200 with an item view or that 404 — never an error. -/
theorem c10_getFlatStr_total (inv : Inventory) (base : String) (p : String) :
    ((∀ it ∈ inv.list, jsNumberInt p ≠ some it.id) →
      getFlatStr inv base p = .notFound "Inventory with this id not found") ∧
    ((∃ v, getFlatStr inv base p = .ok v) ∨
      getFlatStr inv base p = .notFound "Inventory with this id not found") := by
  constructor
  · intro h
    have hn : inv.list.find? (fun v => jsNumberInt p == some v.id) = none := by
      apply List.find?_eq_none.mpr
      intro x hx
      simp [h x hx]
    simp [getFlatStr, hn]
  · cases hfd : inv.list.find? (fun v => jsNumberInt p == some v.id) with
    | some it => exact Or.inl ⟨formatItemResponse base it, by simp [getFlatStr, hfd]⟩
    | none => exact Or.inr (by simp [getFlatStr, hfd])


/-- Witness for C10 at the concrete non-numeric id string "abc". -/
theorem c10_witness :
    (∀ it ∈ invC10.list, jsNumberInt "abc" ≠ some it.id) ∧
    getFlatStr invC10 "" "abc" = .notFound "Inventory with this id not found" :=
  ⟨by decide, (c10_getFlatStr_total invC10 "" "abc").1 (by decide)⟩

/-- C1 as stated is false on the code: at a concrete state with an existing
photo-bearing item, the replace-photo handlers of both variants delete the
old blob strictly before any durable repository write. -/
theorem c1_counterexample :
    deletedBeforeRepoWrite "p.jpg"
      (replacePhotoFlat stFix "" 1 (some "new.jpg")).events = true ∧
    deletedBeforeRepoWrite "p.jpg"
      (replacePhotoRel stFix "" 1 (some "new.jpg")).events = true := by
  decide

/-- C1 amended: for every replace-photo call on an existing item whose
current photo blob is on disk, the old blob is removed FIRST, and the
repository update recording the new reference happens only afterwards (the
flat-file variant flushes the document as its second effect; the relational
variant issues its `UPDATE` as its second effect); the final repository
state does record the new reference. -/
theorem c1_amended_old_blob_deleted_before_update (s : FsState)
    (base : String) (idv : Int) (upload : Option String) (item : Item)
    (old : String) (hfind : findItem s.inv idv = some item)
    (hphoto : item.photo = some old) (hne : old ≠ "") (hmem : old ∈ s.blobs) :
    (replacePhotoFlat s base idv upload).events =
      [Event.blobDelete old,
       Event.dbWrite (replacePhotoFlat s base idv upload).state.inv] ∧
    findItem (replacePhotoFlat s base idv upload).state.inv idv =
      some { item with photo := upload } ∧
    (replacePhotoRel s base idv upload).events =
      [Event.blobDelete old, Event.sqlUpdatePhoto idv upload] := by
  have hmem0 : old ∈ s.blobs ++ upload.toList := List.mem_append_left _ hmem
  have hclean : cleanupPhoto (s.blobs ++ upload.toList) item.photo =
      ((s.blobs ++ upload.toList).erase old, [Event.blobDelete old]) := by
    rw [hphoto]
    exact cleanupPhoto_of_mem _ old hne hmem0
  have hfind' : s.inv.list.find? (fun v => v.id == idv) = some item := hfind
  refine ⟨?_, ?_, ?_⟩
  · simp only [replacePhotoFlat, findItem, hfind', hclean]
    rfl
  · simp only [replacePhotoFlat, findItem, hfind', hclean]
    exact find?_updateFirst_of_find? idv { item with photo := upload }
      s.inv.list item hfind' rfl
  · simp only [replacePhotoRel, findItem, hfind', hclean]
    rfl

/-- Witness for the amended C1 at the photo-bearing fixture item. -/
theorem c1_witness :
    findItem stFix.inv 1 = some itemP ∧ itemP.photo = some "p.jpg" ∧
    ("p.jpg" : String) ≠ "" ∧ "p.jpg" ∈ stFix.blobs ∧
    ((replacePhotoFlat stFix "" 1 (some "n.jpg")).events =
      [Event.blobDelete "p.jpg",
       Event.dbWrite (replacePhotoFlat stFix "" 1 (some "n.jpg")).state.inv] ∧
     findItem (replacePhotoFlat stFix "" 1 (some "n.jpg")).state.inv 1 =
       some { itemP with photo := some "n.jpg" } ∧
     (replacePhotoRel stFix "" 1 (some "n.jpg")).events =
       [Event.blobDelete "p.jpg", Event.sqlUpdatePhoto 1 (some "n.jpg")]) :=
  ⟨by decide, by decide, by decide, by decide,
   c1_amended_old_blob_deleted_before_update stFix "" 1 (some "n.jpg") itemP
     "p.jpg" (by decide) (by decide) (by decide) (by decide)⟩

/-- C3 as stated is false on the code: at a concrete state, delete removes
the blob strictly before the repository record is removed, in both
variants. -/
theorem c3_counterexample :
    deletedBeforeRepoWrite "p.jpg" (deleteFlat stFix 1).events = true ∧
    deletedBeforeRepoWrite "p.jpg" (deleteRel stFix 1).events = true := by
  decide

/-- C3 amended: for every delete of an existing item whose photo blob is on
disk, the blob is deleted FIRST and the repository record only afterwards
(the document flush, resp. the `DELETE` statement, is the second effect);
the final repository state no longer contains the item.  A crash between
the two steps can therefore leave an item referencing a missing blob, not
merely an orphaned blob. -/
theorem c3_amended_blob_deleted_before_record (s : FsState) (idv : Int)
    (item : Item) (p : String) (hfind : findItem s.inv idv = some item)
    (hphoto : item.photo = some p) (hne : p ≠ "") (hmem : p ∈ s.blobs)
    (huniq : UniqueIds s.inv.list) :
    (deleteFlat s idv).events =
      [Event.blobDelete p, Event.dbWrite (deleteFlat s idv).state.inv] ∧
    findItem (deleteFlat s idv).state.inv idv = none ∧
    (deleteRel s idv).events = [Event.blobDelete p, Event.sqlDeleteRow idv] := by
  have hclean : cleanupPhoto s.blobs item.photo =
      (s.blobs.erase p, [Event.blobDelete p]) := by
    rw [hphoto]
    exact cleanupPhoto_of_mem s.blobs p hne hmem
  have hfind' : s.inv.list.find? (fun v => v.id == idv) = some item := hfind
  refine ⟨?_, ?_, ?_⟩
  · simp only [deleteFlat, findItem, hfind', hclean]
    rfl
  · simp only [deleteFlat, findItem, hfind', hclean]
    exact find?_eraseP_of_uniqueIds idv s.inv.list huniq
  · simp only [deleteRel, findItem, hfind', hclean]
    rfl

/-- Witness for the amended C3 at the photo-bearing fixture item. -/
theorem c3_witness :
    findItem stFix.inv 1 = some itemP ∧ itemP.photo = some "p.jpg" ∧
    ("p.jpg" : String) ≠ "" ∧ "p.jpg" ∈ stFix.blobs ∧ UniqueIds stFix.inv.list ∧
    ((deleteFlat stFix 1).events =
      [Event.blobDelete "p.jpg", Event.dbWrite (deleteFlat stFix 1).state.inv] ∧
     findItem (deleteFlat stFix 1).state.inv 1 = none ∧
     (deleteRel stFix 1).events = [Event.blobDelete "p.jpg", Event.sqlDeleteRow 1]) :=
  ⟨by decide, by decide, by decide, by decide, by decide,
   c3_amended_blob_deleted_before_record stFix 1 itemP "p.jpg"
     (by decide) (by decide) (by decide) (by decide) (by decide)⟩

/-- C8: delete is idempotent in outcome: deleting the same id twice makes
the second call answer not-found with no side effects and no state change,
and the blob cleanup of the first call is exactly the one cleanup step for
the deleted item's photo reference. -/
theorem c8_delete_idempotent (s : FsState) (idv : Int) (item : Item)
    (hfind : findItem s.inv idv = some item) (huniq : UniqueIds s.inv.list) :
    (deleteFlat s idv).resp = .okEmpty ∧
    (deleteFlat (deleteFlat s idv).state idv).resp =
      .notFound "Inventory with this id not found" ∧
    (deleteFlat (deleteFlat s idv).state idv).state = (deleteFlat s idv).state ∧
    (deleteFlat (deleteFlat s idv).state idv).events = [] ∧
    (deleteFlat s idv).events.filter isBlobDeleteEvent =
      (cleanupPhoto s.blobs item.photo).2 := by
  have hfind' : s.inv.list.find? (fun v => v.id == idv) = some item := hfind
  have h1 : deleteFlat s idv =
      { resp := .okEmpty,
        state := { inv := { nextId := s.inv.nextId,
                            list := s.inv.list.eraseP (fun v => v.id == idv) },
                   blobs := (cleanupPhoto s.blobs item.photo).1 },
        events := (cleanupPhoto s.blobs item.photo).2 ++
          [Event.dbWrite
            { nextId := s.inv.nextId,
              list := s.inv.list.eraseP (fun v => v.id == idv) }] } := by
    simp only [deleteFlat, findItem, hfind']
  have hnone : (s.inv.list.eraseP (fun v => v.id == idv)).find?
      (fun v => v.id == idv) = none :=
    find?_eraseP_of_uniqueIds idv s.inv.list huniq
  refine ⟨?_, ?_, ?_, ?_, ?_⟩
  · rw [h1]
  · rw [h1]; simp only [deleteFlat, findItem, hnone]
  · rw [h1]; simp only [deleteFlat, findItem, hnone]
  · rw [h1]; simp only [deleteFlat, findItem, hnone]
  · rw [h1]
    rcases cleanupPhoto_events_cases s.blobs item.photo with hc | ⟨n, hc⟩ <;>
      rw [hc] <;> simp [isBlobDeleteEvent]

/-- Witness for C8 at the photo-bearing fixture item. -/
theorem c8_witness :
    findItem stFix.inv 1 = some itemP ∧ UniqueIds stFix.inv.list ∧
    ((deleteFlat stFix 1).resp = .okEmpty ∧
     (deleteFlat (deleteFlat stFix 1).state 1).resp =
       .notFound "Inventory with this id not found" ∧
     (deleteFlat (deleteFlat stFix 1).state 1).state = (deleteFlat stFix 1).state ∧
     (deleteFlat (deleteFlat stFix 1).state 1).events = [] ∧
     (deleteFlat stFix 1).events.filter isBlobDeleteEvent =
       (cleanupPhoto stFix.blobs itemP.photo).2) :=
  ⟨by decide, by decide, c8_delete_idempotent stFix 1 itemP (by decide) (by decide)⟩

/-- The photo locator string is never empty. -/
lemma photoUrl_ne_empty (base : String) (idv : Int) : photoUrl base idv ≠ "" := by
  intro h
  have h2 : (photoUrl base idv).data.length = 0 := by rw [h]; rfl
  rw [photoUrl, String.data_append, String.data_append, String.data_append] at h2
  rw [List.length_append, List.length_append, List.length_append] at h2
  have hp : ("/photo" : String).data.length = 6 := rfl
  rw [hp] at h2
  omega

/-- C6 as stated is false on the code: for the photo-less fixture item, the
search view's description is the stored description followed by a space and
the marker, not the stored description suffixed with exactly the marker. -/
theorem c6_counterexample :
    respDescription (searchFlat stFix "" 2 (some "on")).resp =
      some ("e" ++ " [No photo available]") ∧
    respDescription (searchFlat stFix "" 2 (some "on")).resp ≠
      some ("e" ++ "[No photo available]") := by
  decide

/-- C6 amended: with the photo hint enabled, the returned description is
the stored description followed by a single space and the marker: for a
photo-less item `" [No photo available]"` in both variants (so the
description still ends with `"[No photo available]"`); for an item with a
photo the flat-file variant appends `" [Photo:<locator>]"` and the
relational variant `" [Photo: <locator> ]"`, the bracket content being the
photo locator rather than the raw stored reference. -/
theorem c6_amended_search_markers (s : FsState) (base : String) (idv : Int)
    (item : Item) (hfind : findItem s.inv idv = some item) :
    (item.photo = none →
      respDescription (searchFlat s base idv (some "on")).resp =
        some (item.description ++ " [No photo available]") ∧
      respDescription (searchRel s base idv (some "on")).resp =
        some (item.description ++ " [No photo available]") ∧
      ∃ pre, item.description ++ " [No photo available]" =
        pre ++ "[No photo available]") ∧
    (∀ p : String, item.photo = some p → p ≠ "" →
      respDescription (searchFlat s base idv (some "on")).resp =
        some (item.description ++ " [Photo:" ++ photoUrl base item.id ++ "]") ∧
      respDescription (searchRel s base idv (some "on")).resp =
        some (item.description ++ " [Photo: " ++ photoUrl base item.id ++ " ]")) := by
  have hfind' : s.inv.list.find? (fun v => v.id == idv) = some item := hfind
  constructor
  · intro hnp
    refine ⟨?_, ?_, ⟨item.description ++ " ", ?_⟩⟩
    · simp only [searchFlat, findItem, hfind']
      simp [formatItemResponse, truthy, hnp, respDescription]
    · simp only [searchRel, findItem, hfind']
      simp [formatItemResponse, truthy, hnp, respDescription]
    · rw [String.append_assoc]
      exact congrArg (fun t => item.description ++ t)
        (by decide : (" [No photo available]" : String) = " " ++ "[No photo available]")
  · intro p hp hpne
    have hurl : (photoUrl base item.id == "") = false := by
      simpa using photoUrl_ne_empty base item.id
    constructor
    · simp only [searchFlat, findItem, hfind']
      simp [formatItemResponse, truthy, hp, hpne, hurl, respDescription]
    · simp only [searchRel, findItem, hfind']
      simp [formatItemResponse, truthy, hp, hpne, hurl, respDescription]

/-- Witness for the amended C6 at the photo-less fixture item. -/
theorem c6_witness :
    findItem stFix.inv 2 = some itemN ∧ itemN.photo = none ∧
    (respDescription (searchFlat stFix "" 2 (some "on")).resp =
      some (itemN.description ++ " [No photo available]") ∧
     respDescription (searchRel stFix "" 2 (some "on")).resp =
      some (itemN.description ++ " [No photo available]") ∧
     ∃ pre, itemN.description ++ " [No photo available]" =
       pre ++ "[No photo available]") :=
  ⟨by decide, by decide,
   (c6_amended_search_markers stFix "" 2 itemN (by decide)).1 (by decide)⟩

/-- The search handler never touches the state. -/
lemma searchFlat_state (s : FsState) (base : String) (idv : Int)
    (hp : Option String) : (searchFlat s base idv hp).state = s := by
  unfold searchFlat
  cases h : findItem s.inv idv <;> simp

/-- One step preserves I4, provided an `updateMeta` does not supply the
explicit empty-string name. -/
lemma namesOk_step (s : FsState) (op : Op) (h : NamesOk s.inv = true)
    (hop : opKeepsNames op = true) : NamesOk (step s op).inv = true := by
  have h' : ∀ it ∈ s.inv.list, (it.inventory_name == "") = false := by
    intro it hit
    have := List.all_eq_true.mp h it hit
    simpa using this
  cases op with
  | register n d u =>
    cases n with
    | none => simpa [step, registerFlat, truthy] using h
    | some nm =>
      by_cases hnm : (nm == "") = true
      · have hf : truthy (some nm) = false := by simp [truthy, hnm]
        simpa [step, registerFlat, hf] using h
      · have ht : truthy (some nm) = true := by simp [truthy, hnm]
        simp only [step, registerFlat, ht, if_true]
        simp only [NamesOk, List.all_append, Bool.and_eq_true]
        refine ⟨h, ?_⟩
        simp [hnm]
  | updateMeta i n dsc =>
    cases hf : findItem s.inv i with
    | none => simpa [step, updateMetaFlat, hf] using h
    | some item =>
      have hmem : item ∈ s.inv.list := List.mem_of_find?_eq_some hf
      have hname : ((n.getD item.inventory_name) == "") = false := by
        cases n with
        | none => simpa using h' item hmem
        | some x =>
          have : (x == "") = false := by simpa [opKeepsNames] using hop
          simpa using this
      simp only [step, updateMetaFlat, hf, NamesOk]
      exact all_updateFirst _ _ _ (by simpa using hname) _ h
  | replacePhoto i u =>
    cases hf : findItem s.inv i with
    | none => cases u <;> simpa [step, replacePhotoFlat, hf] using h
    | some item =>
      have hmem : item ∈ s.inv.list := List.mem_of_find?_eq_some hf
      simp only [step, replacePhotoFlat, hf, NamesOk]
      exact all_updateFirst _ _ _ (by simpa using h' item hmem) _ h
  | delete i =>
    cases hf : findItem s.inv i with
    | none => simpa [step, deleteFlat, hf] using h
    | some item =>
      simp only [step, deleteFlat, hf, NamesOk]
      apply List.all_eq_true.mpr
      intro it hit
      have : it ∈ s.inv.list := (List.eraseP_sublist s.inv.list).subset hit
      exact List.all_eq_true.mp h it this
  | search i hp => simpa [step, searchFlat_state] using h

/-- I4 survives any run whose updates avoid the explicit empty name. -/
lemma namesOk_run : ∀ (ops : List Op) (s : FsState), NamesOk s.inv = true →
    (∀ op ∈ ops, opKeepsNames op = true) → NamesOk (run s ops).inv = true := by
  intro ops
  induction ops with
  | nil => intro s h _; exact h
  | cons op ops ih =>
    intro s h hops
    have h1 := namesOk_step s op h (hops op (List.mem_cons_self op ops))
    exact ih (step s op) h1 (fun o ho => hops o (List.mem_cons_of_mem op ho))

/-- C5 as stated is false on the code: an `update_metadata` call supplying
the explicit empty-string name persists an item with an empty name (the
`??` fallback keeps an explicitly supplied empty string). -/
theorem c5_counterexample :
    NamesOk (run initState
      [Op.register (some "Saw") none none,
       Op.updateMeta 1 (some "") none]).inv = false := by
  decide

/-- C5 amended: register never persists an empty name, and I4 holds for
every operation sequence in which no `update_metadata` call supplies the
explicit empty-string name; only such a call can break the invariant. -/
theorem c5_amended_names_invariant (ops : List Op)
    (hops : ∀ op ∈ ops, opKeepsNames op = true) :
    NamesOk (run initState ops).inv = true ∧
    (∀ (s : FsState) (n d u : Option String), NamesOk s.inv = true →
      NamesOk (registerFlat s "" n d u).state.inv = true) := by
  constructor
  · exact namesOk_run ops initState (by decide) hops
  · intro s n d u h
    exact namesOk_step s (.register n d u) h rfl

/-- Witness for the amended C5 on a concrete benign operation sequence. -/
theorem c5_witness :
    (∀ op ∈ [Op.register (some "Saw") none none, Op.delete 1],
      opKeepsNames op = true) ∧
    NamesOk (run initState
      [Op.register (some "Saw") none none, Op.delete 1]).inv = true :=
  ⟨by decide, (c5_amended_names_invariant _ (by decide)).1⟩

/-- Introduction form of `IdsOk` on an explicit store. -/
lemma idsOk_mk (N : Int) (L : List Item) (h1 : UniqueIds L)
    (h2 : ∀ it ∈ L, it.id < N) : IdsOk { nextId := N, list := L } := ⟨h1, h2⟩

/-- One step preserves id well-formedness. -/
lemma idsOk_step (s : FsState) (op : Op) (h : IdsOk s.inv) :
    IdsOk (step s op).inv := by
  obtain ⟨hnd, hlt⟩ := h
  cases op with
  | register n d u =>
    by_cases ht : truthy n = true
    · simp only [step, registerFlat, ht, if_true]
      refine idsOk_mk _ _ ?_ ?_
      · simp only [UniqueIds, List.map_append, List.map_cons, List.map_nil]
        refine List.Nodup.append hnd (by simp) ?_
        intro a ha hb
        have hb' : a = s.inv.nextId := by simpa using hb
        obtain ⟨it, hit, hita⟩ : ∃ it ∈ s.inv.list, it.id = a := by simpa using ha
        have := hlt it hit
        omega
      · intro it hit
        rcases List.mem_append.mp hit with h1 | h2
        · have := hlt it h1
          omega
        · simp only [List.mem_singleton] at h2
          subst h2
          show s.inv.nextId < s.inv.nextId + 1
          omega
    · simpa [step, registerFlat, ht] using And.intro hnd hlt
  | updateMeta i n dsc =>
    cases hf : findItem s.inv i with
    | none => simpa [step, updateMetaFlat, hf] using And.intro hnd hlt
    | some item =>
      have hfind' : s.inv.list.find? (fun v => v.id == i) = some item := hf
      have hids := ids_updateFirst_of_find? i
        (Item.mk item.id (n.getD item.inventory_name) (dsc.getD item.description) item.photo)
        s.inv.list item hfind' rfl
      simp only [step, updateMetaFlat, hf]
      refine idsOk_mk _ _ ?_ ?_
      · unfold UniqueIds
        rw [hids]
        exact hnd
      · intro it hit
        have hmm := List.mem_map_of_mem Item.id hit
        rw [hids] at hmm
        obtain ⟨v, hv, hvid⟩ := List.mem_map.mp hmm
        have := hlt v hv
        omega
  | replacePhoto i u =>
    cases hf : findItem s.inv i with
    | none => cases u <;> simpa [step, replacePhotoFlat, hf] using And.intro hnd hlt
    | some item =>
      have hfind' : s.inv.list.find? (fun v => v.id == i) = some item := hf
      have hids := ids_updateFirst_of_find? i
        (Item.mk item.id item.inventory_name item.description u)
        s.inv.list item hfind' rfl
      simp only [step, replacePhotoFlat, hf]
      refine idsOk_mk _ _ ?_ ?_
      · unfold UniqueIds
        rw [hids]
        exact hnd
      · intro it hit
        have hmm := List.mem_map_of_mem Item.id hit
        rw [hids] at hmm
        obtain ⟨v, hv, hvid⟩ := List.mem_map.mp hmm
        have := hlt v hv
        omega
  | delete i =>
    cases hf : findItem s.inv i with
    | none => simpa [step, deleteFlat, hf] using And.intro hnd hlt
    | some item =>
      simp only [step, deleteFlat, hf]
      refine idsOk_mk _ _ ?_ ?_
      · unfold UniqueIds
        exact List.Nodup.sublist
          (List.Sublist.map Item.id (List.eraseP_sublist s.inv.list)) hnd
      · intro it hit
        exact hlt it ((List.eraseP_sublist s.inv.list).subset hit)
  | search i hp => simpa [step, searchFlat_state] using And.intro hnd hlt

/-- `nextId` never decreases. -/
lemma nextId_step (s : FsState) (op : Op) :
    s.inv.nextId ≤ (step s op).inv.nextId := by
  cases op with
  | register n d u =>
    by_cases ht : truthy n = true <;> simp [step, registerFlat, ht]
  | updateMeta i n dsc =>
    cases hf : findItem s.inv i <;> simp [step, updateMetaFlat, hf]
  | replacePhoto i u =>
    cases hf : findItem s.inv i with
    | none => cases u <;> simp [step, replacePhotoFlat, hf]
    | some item => simp [step, replacePhotoFlat, hf]
  | delete i =>
    cases hf : findItem s.inv i <;> simp [step, deleteFlat, hf]
  | search i hp => simp [step, searchFlat_state]

/-- A minted id is the current `nextId`, and minting bumps the counter. -/
lemma assignedId_facts (s : FsState) (op : Op) (a : Int)
    (ha : assignedId s op = some a) :
    a = s.inv.nextId ∧ (step s op).inv.nextId = s.inv.nextId + 1 := by
  cases op with
  | register n d u =>
    by_cases ht : truthy n = true
    · refine ⟨by simpa [assignedId, ht] using ha.symm, ?_⟩
      simp [step, registerFlat, ht]
    · simp [assignedId, ht] at ha
  | updateMeta i n dsc => simp [assignedId] at ha
  | replacePhoto i u => simp [assignedId] at ha
  | delete i => simp [assignedId] at ha
  | search i hp => simp [assignedId] at ha

/-- Every id minted during a run is at least the starting `nextId`. -/
lemma assignedIds_lower : ∀ (ops : List Op) (s : FsState) (a : Int),
    a ∈ assignedIds s ops → s.inv.nextId ≤ a := by
  intro ops
  induction ops with
  | nil => intro s a ha; simp [assignedIds] at ha
  | cons op ops ih =>
    intro s a ha
    simp only [assignedIds] at ha
    rcases List.mem_append.mp ha with h1 | h2
    · cases hop : assignedId s op with
      | none => rw [hop] at h1; simp at h1
      | some b =>
        rw [hop] at h1
        have hab : a = b := by simpa using h1
        have := (assignedId_facts s op b hop).1
        omega
    · have hle := ih (step s op) a h2
      have := nextId_step s op
      omega

/-- The ids minted along any run are strictly increasing. -/
lemma assignedIds_pairwise : ∀ (ops : List Op) (s : FsState),
    (assignedIds s ops).Pairwise (· < ·) := by
  intro ops
  induction ops with
  | nil => intro s; simp [assignedIds]
  | cons op ops ih =>
    intro s
    simp only [assignedIds]
    apply List.pairwise_append.mpr
    refine ⟨?_, ih (step s op), ?_⟩
    · cases hop : assignedId s op <;> simp
    · intro a ha b hb
      cases hop : assignedId s op with
      | none => rw [hop] at ha; simp at ha
      | some c =>
        rw [hop] at ha
        have hac : a = c := by simpa using ha
        obtain ⟨hc, hstep⟩ := assignedId_facts s op c hop
        have hble := assignedIds_lower ops (step s op) b hb
        omega

/-- Every flat-file document flush writes exactly the post-state store:
`nextId` and `list` are persisted together. -/
lemma dbWrite_step (s : FsState) (op : Op) (j : Inventory)
    (h : Event.dbWrite j ∈ stepEvents s op) : j = (step s op).inv := by
  cases op with
  | register n d u =>
    by_cases ht : truthy n = true
    · simp only [stepEvents, registerFlat, ht, if_true, List.mem_singleton,
        Event.dbWrite.injEq] at h
      simp only [step, registerFlat, ht, if_true]
      exact h
    · simp [stepEvents, registerFlat, ht] at h
  | updateMeta i n dsc =>
    cases hf : findItem s.inv i with
    | none => simp [stepEvents, updateMetaFlat, hf] at h
    | some item =>
      simp only [stepEvents, updateMetaFlat, hf, List.mem_singleton,
        Event.dbWrite.injEq] at h
      simp only [step, updateMetaFlat, hf]
      exact h
  | replacePhoto i u =>
    cases hf : findItem s.inv i with
    | none => cases u <;> simp [stepEvents, replacePhotoFlat, hf] at h
    | some item =>
      simp only [stepEvents, replacePhotoFlat, hf] at h
      simp only [step, replacePhotoFlat, hf]
      rcases cleanupPhoto_events_cases (s.blobs ++ u.toList) item.photo with hc | ⟨m, hc⟩ <;>
        rw [hc] at h <;> simpa using h
  | delete i =>
    cases hf : findItem s.inv i with
    | none => simp [stepEvents, deleteFlat, hf] at h
    | some item =>
      simp only [stepEvents, deleteFlat, hf] at h
      simp only [step, deleteFlat, hf]
      rcases cleanupPhoto_events_cases s.blobs item.photo with hc | ⟨m, hc⟩ <;>
        rw [hc] at h <;> simpa using h
  | search i hp =>
    cases hf : findItem s.inv i <;> simp [stepEvents, searchFlat, hf] at h

/-- C7: over every operation sequence from the initial store, ids are
pairwise distinct and bounded by the persisted `nextId` counter; the ids
minted by register calls are strictly increasing over the lifetime of the
store (hence never reused, even after deletions); and every document flush
carries the whole post-state `{ nextId, list }`, so the counter is
persisted together with the list on every mutation. -/
theorem c7_flat_id_uniqueness :
    (∀ ops : List Op, IdsOk (run initState ops).inv) ∧
    (∀ ops : List Op, (assignedIds initState ops).Pairwise (· < ·)) ∧
    (∀ (s : FsState) (op : Op) (j : Inventory),
      Event.dbWrite j ∈ stepEvents s op → j = (step s op).inv) := by
  refine ⟨?_, fun ops => assignedIds_pairwise ops initState, dbWrite_step⟩
  intro ops
  have hrun : ∀ (l : List Op) (s : FsState), IdsOk s.inv → IdsOk (run s l).inv := by
    intro l
    induction l with
    | nil => intro s h; exact h
    | cons op l ih => intro s h; exact ih (step s op) (idsOk_step s op h)
  exact hrun ops initState (by decide)

/-- Witness for C7: the document flush of a concrete register carries the
full post-state store. -/
theorem c7_witness :
    Event.dbWrite (Inventory.mk 2 [Item.mk 1 "Saw" "" none]) ∈
      stepEvents initState (Op.register (some "Saw") none none) ∧
    Inventory.mk 2 [Item.mk 1 "Saw" "" none] =
      (step initState (Op.register (some "Saw") none none)).inv :=
  ⟨by decide, c7_flat_id_uniqueness.2.2 _ _ _ (by decide)⟩

/-- Replacing the first id-match by a constant equals the SQL-style map of
`g` over all id-matches, when ids are unique and the constant is `g` of the
found row. -/
lemma updateFirst_const_eq_map (k : Int) (l : List Item) (item y : Item)
    (huniq : UniqueIds l) (hfind : l.find? (fun v => v.id == k) = some item)
    (g : Item → Item) (hy : g item = y) :
    updateFirst (fun v => v.id == k) (fun _ => y) l =
      l.map (fun v => if v.id == k then g v else v) := by
  rw [updateFirst_eq_map_of_uniqueIds k (fun _ => y) l huniq]
  apply List.map_congr_left
  intro a ha
  by_cases hk : (a.id == k) = true
  · have ha2 : a = item :=
      eq_find_of_uniqueIds k l item huniq hfind a ha (by simpa using hk)
    rw [if_pos hk, if_pos hk, ha2, hy]
  · rw [if_neg hk, if_neg hk]

/-- C4 as stated is false on the code: with identical stores, identical
blob directories and the same locator base, the two variants disagree on
the search response for a photo-bearing item with the hint enabled (the
appended marker is formatted differently). -/
theorem c4_counterexample :
    (searchFlat stFix "" 1 (some "on")).resp ≠
      (searchRel stFix "" 1 (some "on")).resp := by
  decide

/-- Two stored items with the same id are the same item, when ids are
unique. -/
lemma uniqueIds_inj (L : List Item) (huniq : UniqueIds L) :
    ∀ a ∈ L, ∀ b ∈ L, a.id = b.id → a = b := by
  induction L with
  | nil => intro a ha; simp at ha
  | cons x xs ih =>
    intro a ha b hb hab
    have hx : x.id ∉ xs.map Item.id := by
      have := (List.nodup_cons.mp huniq).1
      simpa using this
    have hxs : UniqueIds xs := (List.nodup_cons.mp huniq).2
    rcases List.mem_cons.mp ha with rfl | ha'
    · rcases List.mem_cons.mp hb with rfl | hb'
      · rfl
      · exfalso
        apply hx
        rw [hab]
        exact List.mem_map_of_mem Item.id hb'
    · rcases List.mem_cons.mp hb with rfl | hb'
      · exfalso
        apply hx
        rw [← hab]
        exact List.mem_map_of_mem Item.id ha'
      · exact ih hxs a ha' b hb' hab

/-- With unique ids, the first id-match is the same item in any permutation
of the rows: lookups do not depend on the row order the relational backend
happens to present. -/
lemma find?_eq_of_perm (k : Int) (L R : List Item) (huniq : UniqueIds L)
    (hperm : L.Perm R) :
    L.find? (fun v => v.id == k) = R.find? (fun v => v.id == k) := by
  cases hL : L.find? (fun v => v.id == k) with
  | none =>
    have hnone := List.find?_eq_none.mp hL
    symm
    apply List.find?_eq_none.mpr
    intro x hx
    exact hnone x (hperm.mem_iff.mpr hx)
  | some item =>
    have hmemL : item ∈ L := List.mem_of_find?_eq_some hL
    have hpitem : (item.id == k) = true :=
      List.find?_some (p := fun v : Item => v.id == k) hL
    cases hR : R.find? (fun v => v.id == k) with
    | none =>
      exact absurd hpitem ((List.find?_eq_none.mp hR) item (hperm.mem_iff.mp hmemL))
    | some item2 =>
      have hmem2 : item2 ∈ L := hperm.mem_iff.mpr (List.mem_of_find?_eq_some hR)
      have hp2 : (item2.id == k) = true :=
        List.find?_some (p := fun v : Item => v.id == k) hR
      have heq : item = item2 := by
        apply uniqueIds_inj L huniq item hmemL item2 hmem2
        have h1 : item.id = k := by simpa using hpitem
        have h2 : item2.id = k := by simpa using hp2
        rw [h1, h2]
      rw [heq]

/-- C4 amended: whenever the flat-file store and the relational table hold
the same repository content — same counter, same rows in ANY order, same
blobs (the spec guarantees no row order for the relational backend) — the
two variants produce the same client-visible outcome for register, get,
update-metadata, replace-photo and delete (same response up to the photo
locator base), list returns the same item views up to row order, the stores
still hold the same content up to row order afterwards, and search agrees
except when the photo hint is requested for a photo-bearing item, where the
two variants append differently formatted markers around the same locator.
The lookup-bearing parts assume the reachable-state invariant that stored
ids are unique. -/
theorem c4_amended_backend_equivalence :
    (∀ (s r : FsState) (base : String) (n d u : Option String),
      StatesMatch s r →
      (registerFlat s base n d u).resp = (registerRel r base n d u).resp ∧
      (registerFlat s base n d u).state.inv.nextId =
        (registerRel r base n d u).state.inv.nextId ∧
      (registerFlat s base n d u).state.inv.list.Perm
        (registerRel r base n d u).state.inv.list) ∧
    (∀ (s r : FsState) (base : String) (idv : Int),
      StatesMatch s r → UniqueIds s.inv.list →
      getFlat s.inv base idv = getRel r.inv base idv) ∧
    (∀ (s r : FsState) (base : String), StatesMatch s r →
      ∃ lf lr, listFlat s.inv base = .okList lf ∧
        listRel r.inv base = .okList lr ∧ lf.Perm lr) ∧
    (∀ (s r : FsState) (base : String) (idv : Int) (n d : Option String),
      StatesMatch s r → UniqueIds s.inv.list →
      (updateMetaFlat s base idv n d).resp = (updateMetaRel r base idv n d).resp ∧
      StatesMatch (updateMetaFlat s base idv n d).state
        (updateMetaRel r base idv n d).state) ∧
    (∀ (s r : FsState) (base : String) (idv : Int) (u : Option String),
      StatesMatch s r → UniqueIds s.inv.list →
      (replacePhotoFlat s base idv u).resp = (replacePhotoRel r base idv u).resp ∧
      StatesMatch (replacePhotoFlat s base idv u).state
        (replacePhotoRel r base idv u).state) ∧
    (∀ (s r : FsState) (idv : Int),
      StatesMatch s r → UniqueIds s.inv.list →
      (deleteFlat s idv).resp = (deleteRel r idv).resp ∧
      StatesMatch (deleteFlat s idv).state (deleteRel r idv).state) ∧
    (∀ (s r : FsState) (base : String) (idv : Int) (hp : Option String),
      StatesMatch s r → UniqueIds s.inv.list → hp ≠ some "on" →
      (searchFlat s base idv hp).resp = (searchRel r base idv hp).resp) ∧
    (∀ (s r : FsState) (base : String) (idv : Int) (hp : Option String),
      StatesMatch s r → UniqueIds s.inv.list → findItem s.inv idv = none →
      (searchFlat s base idv hp).resp = (searchRel r base idv hp).resp) ∧
    (∀ (s r : FsState) (base : String) (idv : Int) (item : Item),
      StatesMatch s r → UniqueIds s.inv.list →
      findItem s.inv idv = some item → truthy item.photo = false →
      (searchFlat s base idv (some "on")).resp =
        (searchRel r base idv (some "on")).resp) ∧
    (∀ (s r : FsState) (base : String) (idv : Int) (item : Item) (p : String),
      StatesMatch s r → UniqueIds s.inv.list →
      findItem s.inv idv = some item → item.photo = some p → p ≠ "" →
      (searchFlat s base idv (some "on")).resp =
        .okSearch (SearchView.mk item.id item.inventory_name
          (item.description ++ " [Photo:" ++ photoUrl base item.id ++ "]")) ∧
      (searchRel r base idv (some "on")).resp =
        .okSearch (SearchView.mk item.id item.inventory_name
          (item.description ++ " [Photo: " ++ photoUrl base item.id ++ " ]"))) := by
  refine ⟨?_, ?_, ?_, ?_, ?_, ?_, ?_, ?_, ?_, ?_⟩
  · intro s r base n d u hm
    obtain ⟨hN, hP, hB⟩ := hm
    by_cases ht : truthy n = true
    · refine ⟨?_, ?_, ?_⟩
      · simp [registerFlat, registerRel, sqlInsertReturningId, ht, hN]
      · simp [registerFlat, registerRel, sqlInsertReturningId, ht, hN]
      · simp only [registerFlat, registerRel, sqlInsertReturningId, ht, if_true]
        rw [hN]
        exact hP.append_right _
    · refine ⟨?_, ?_, ?_⟩
      · cases u <;> simp [registerFlat, registerRel, ht]
      · cases u <;> simp [registerFlat, registerRel, ht, hN]
      · cases u <;> simp only [registerFlat, registerRel, ht, if_false] <;> exact hP
  · intro s r base idv hm huniq
    obtain ⟨hN, hP, hB⟩ := hm
    have hfind := find?_eq_of_perm idv s.inv.list r.inv.list huniq hP
    unfold getFlat getRel findItem
    rw [hfind]
  · intro s r base hm
    obtain ⟨hN, hP, hB⟩ := hm
    exact ⟨_, _, rfl, rfl, hP.map _⟩
  · intro s r base idv n d hm huniq
    obtain ⟨hN, hP, hB⟩ := hm
    have hfind := find?_eq_of_perm idv s.inv.list r.inv.list huniq hP
    cases hf : findItem s.inv idv with
    | none =>
      have hfr : findItem r.inv idv = none := by
        have : r.inv.list.find? (fun v => v.id == idv) = none := by
          rw [← hfind]; exact hf
        exact this
      constructor
      · simp [updateMetaFlat, updateMetaRel, hf, hfr]
      · simp only [updateMetaFlat, updateMetaRel, hf, hfr]
        exact ⟨hN, hP, hB⟩
    | some item =>
      have hfr : findItem r.inv idv = some item := by
        have : r.inv.list.find? (fun v => v.id == idv) = some item := by
          rw [← hfind]; exact hf
        exact this
      have hfind' : s.inv.list.find? (fun v => v.id == idv) = some item := hf
      constructor
      · simp [updateMetaFlat, updateMetaRel, hf, hfr]
      · simp only [updateMetaFlat, updateMetaRel, hf, hfr, sqlUpdateWhere]
        refine ⟨hN, ?_, hB⟩
        rw [updateFirst_const_eq_map idv s.inv.list item
          (Item.mk item.id (n.getD item.inventory_name) (d.getD item.description) item.photo)
          huniq hfind'
          (fun v => Item.mk v.id (n.getD item.inventory_name) (d.getD item.description) v.photo)
          rfl]
        exact hP.map _
  · intro s r base idv u hm huniq
    obtain ⟨hN, hP, hB⟩ := hm
    have hfind := find?_eq_of_perm idv s.inv.list r.inv.list huniq hP
    cases hf : findItem s.inv idv with
    | none =>
      have hfr : findItem r.inv idv = none := by
        have : r.inv.list.find? (fun v => v.id == idv) = none := by
          rw [← hfind]; exact hf
        exact this
      constructor
      · cases u <;> simp [replacePhotoFlat, replacePhotoRel, hf, hfr]
      · cases u <;> simp only [replacePhotoFlat, replacePhotoRel, hf, hfr] <;>
          exact ⟨hN, hP, by rw [hB]⟩
    | some item =>
      have hfr : findItem r.inv idv = some item := by
        have : r.inv.list.find? (fun v => v.id == idv) = some item := by
          rw [← hfind]; exact hf
        exact this
      have hfind' : s.inv.list.find? (fun v => v.id == idv) = some item := hf
      constructor
      · simp [replacePhotoFlat, replacePhotoRel, hf, hfr]
      · simp only [replacePhotoFlat, replacePhotoRel, hf, hfr, sqlUpdateWhere]
        refine ⟨hN, ?_, by rw [hB]⟩
        rw [updateFirst_const_eq_map idv s.inv.list item
          (Item.mk item.id item.inventory_name item.description u)
          huniq hfind'
          (fun v => Item.mk v.id v.inventory_name v.description u)
          rfl]
        exact hP.map _
  · intro s r idv hm huniq
    obtain ⟨hN, hP, hB⟩ := hm
    have hfind := find?_eq_of_perm idv s.inv.list r.inv.list huniq hP
    cases hf : findItem s.inv idv with
    | none =>
      have hfr : findItem r.inv idv = none := by
        have : r.inv.list.find? (fun v => v.id == idv) = none := by
          rw [← hfind]; exact hf
        exact this
      constructor
      · simp [deleteFlat, deleteRel, hf, hfr]
      · simp only [deleteFlat, deleteRel, hf, hfr]
        exact ⟨hN, hP, hB⟩
    | some item =>
      have hfr : findItem r.inv idv = some item := by
        have : r.inv.list.find? (fun v => v.id == idv) = some item := by
          rw [← hfind]; exact hf
        exact this
      constructor
      · simp [deleteFlat, deleteRel, hf, hfr]
      · simp only [deleteFlat, deleteRel, hf, hfr, sqlDeleteWhere]
        refine ⟨hN, ?_, by rw [hB]⟩
        rw [eraseP_eq_filter_of_uniqueIds idv s.inv.list huniq]
        exact hP.filter _
  · intro s r base idv hp hm huniq hne
    obtain ⟨hN, hP, hB⟩ := hm
    have hfind := find?_eq_of_perm idv s.inv.list r.inv.list huniq hP
    have hb : (hp == some "on") = false := beq_eq_false_iff_ne.mpr hne
    cases hf : findItem s.inv idv with
    | none =>
      have hfr : findItem r.inv idv = none := by
        have : r.inv.list.find? (fun v => v.id == idv) = none := by
          rw [← hfind]; exact hf
        exact this
      simp [searchFlat, searchRel, hf, hfr, hb]
    | some item =>
      have hfr : findItem r.inv idv = some item := by
        have : r.inv.list.find? (fun v => v.id == idv) = some item := by
          rw [← hfind]; exact hf
        exact this
      simp [searchFlat, searchRel, hf, hfr, hb]
  · intro s r base idv hp hm huniq hf
    obtain ⟨hN, hP, hB⟩ := hm
    have hfind := find?_eq_of_perm idv s.inv.list r.inv.list huniq hP
    have hfr : findItem r.inv idv = none := by
      have : r.inv.list.find? (fun v => v.id == idv) = none := by
        rw [← hfind]; exact hf
      exact this
    simp [searchFlat, searchRel, hf, hfr]
  · intro s r base idv item hm huniq hf hph
    obtain ⟨hN, hP, hB⟩ := hm
    have hfind := find?_eq_of_perm idv s.inv.list r.inv.list huniq hP
    have hfr : findItem r.inv idv = some item := by
      have : r.inv.list.find? (fun v => v.id == idv) = some item := by
        rw [← hfind]; exact hf
      exact this
    have h0 : truthy none = false := rfl
    simp [searchFlat, searchRel, hf, hfr, formatItemResponse, hph, h0]
  · intro s r base idv item p hm huniq hf hp hpne
    obtain ⟨hN, hP, hB⟩ := hm
    have hfind := find?_eq_of_perm idv s.inv.list r.inv.list huniq hP
    have hfr : findItem r.inv idv = some item := by
      have : r.inv.list.find? (fun v => v.id == idv) = some item := by
        rw [← hfind]; exact hf
      exact this
    have hurl2 : (photoUrl base item.id == "") = false := by
      simpa using photoUrl_ne_empty base item.id
    constructor
    · simp [searchFlat, hf, formatItemResponse, truthy, hp, hpne, hurl2]
    · simp [searchRel, hfr, formatItemResponse, truthy, hp, hpne, hurl2]

/-- Witness for the amended C4: the delete equivalence between the fixture
flat store and the oppositely ordered relational table. -/
theorem c4_witness :
    StatesMatch stFix stFixPerm ∧ UniqueIds stFix.inv.list ∧
    ((deleteFlat stFix 1).resp = (deleteRel stFixPerm 1).resp ∧
     StatesMatch (deleteFlat stFix 1).state (deleteRel stFixPerm 1).state) := by
  have hmatch : StatesMatch stFix stFixPerm := ⟨rfl, by decide, rfl⟩
  exact ⟨hmatch, by decide,
    c4_amended_backend_equivalence.2.2.2.2.2.1 stFix stFixPerm 1 hmatch (by decide)⟩
